import Mathlib

/-!
Shallow embedding of `src/devices/stepper.py` (class `StepperMotor`).

Modelling conventions:
* The N `DigitalOutputDevice` pin handles are modelled by `coils : List Int`,
  one entry per still-acquired handle holding its live output level
  (`coil.value`).  `close()` sets `self._coils = ()`, so a closed motor has
  `coils = []` (matching the `closed` property `len(self._coils) == 0`).
* `_coil_values` is `coilValues : List (List Int)`, `_position` is
  `position : Int` (stored raw, exactly as the Python attribute), `_zero`
  is `zero`, and `_move_thread` is `moveThread : Bool` (whether a motion
  thread object is currently referenced).
* Each mutating operation returns an `OpResult`: an optional Python
  exception, the state of the object when the call returns (Python leaves
  the object in its partially-mutated state when an exception is raised),
  and an ordered event trace.  The trace records, in program order, the
  externally visible actions: stopping-and-joining the motion thread
  (`GPIOThread.stop` sets the stopping event and joins), each pin write,
  each position assignment, each pin-handle release, and the start of a
  new motion thread.
* Timing (`fps`, the `stopping.wait(delay)` sleep) is not modelled; a
  `background=False` call is modelled by running the motion loop
  synchronously at the point of the `join()`, with the stopping event
  never set (the uncancelled execution).
* `stepper.py` references `OutputDeviceBadValue` without importing it
  (the module only imports `cycle`, `Device`, `DigitalOutputDevice` and
  `GPIOThread`), so executing that `raise` statement actually raises
  `NameError`; the error constructor `nameErrorOutputDeviceBadValue`
  records this.  `closedDevice` models the DeviceClosed error kind of the
  collaborator library; no code path of `stepper.py` produces it.
-/

inductive PyErr where
  | nameErrorOutputDeviceBadValue : PyErr
  | indexError : PyErr
  | zeroDivisionError : PyErr
  | closedDevice : PyErr
deriving Repr, DecidableEq

inductive Event where
  | taskStopped : Event
  | taskStarted : Event
  | pinWrite (v : Int) : Event
  | posSet (p : Int) : Event
  | pinClosed : Event
deriving Repr, DecidableEq

structure StepperMotor where
  coils : List Int
  coilValues : List (List Int)
  position : Int
  zero : List Int
  moveThread : Bool
deriving Repr, DecidableEq

structure OpResult where
  err : Option PyErr
  state : StepperMotor
  trace : List Event
deriving Repr, DecidableEq

/-- Python sequence indexing `l[i]` for an arbitrary (possibly negative)
integer index: a negative index counts from the end; out of range on
either side is an IndexError (`none`). -/
def pyGet (l : List α) (i : Int) : Option α :=
  if 0 ≤ i then l[i.toNat]?
  else if 0 ≤ i + l.length then l[(i + (l.length : Int)).toNat]?
  else none

namespace StepperMotor

/-- the element check of the value setter loop: `v not in (0, 1)` raises
for the first offending element; since the object is untouched up to that
point, checking all elements at once is observationally the same. -/
def validPattern (value : List Int) : Bool :=
  value.all (fun v => v == 0 || v == 1)

/-- writes of `for coil, v in zip(self._coils, value)`: pairwise
assignment, surplus on either side ignored.  Returns the new pin levels
and the pin-write events in program order. -/
def writeZip : List Int → List Int → List Int × List Event
  | _c :: cs, v :: vs =>
    let r := writeZip cs vs
    (v :: r.1, Event.pinWrite v :: r.2)
  | cs, [] => (cs, [])
  | [], _ :: _ => ([], [])

/-- method `_stop_move`: if a thread object is referenced, stop (set the
stopping event, join) and drop the reference. -/
def stop_move (s : StepperMotor) : StepperMotor × List Event :=
  if s.moveThread then ({ s with moveThread := false }, [Event.taskStopped])
  else (s, [])

/-- property getter `value`: read the live level of every coil handle. -/
def value_get (s : StepperMotor) : List Int :=
  s.coils

/-- property setter `value`: validate each element is 0 or 1 (the raise
statement names the unimported `OutputDeviceBadValue`, so it actually
raises NameError), then `_stop_move`, then write pairwise via `zip`. -/
def value_set (s : StepperMotor) (value : List Int) : OpResult :=
  if validPattern value then
    let r1 := stop_move s
    let r2 := writeZip r1.1.coils value
    ⟨none, { r1.1 with coils := r2.1 }, r1.2 ++ r2.2⟩
  else ⟨some PyErr.nameErrorOutputDeviceBadValue, s, []⟩

/-- property getter `position`: the raw stored attribute. -/
def position_get (s : StepperMotor) : Int :=
  s.position

/-- property setter `position`: `_stop_move`; store `pos` raw; then set
`value` to `_coil_values[pos % len(_coil_values)]` (Python `%` on a
positive modulus is the always-nonnegative `Int.emod`; an empty table
means `% 0`, a ZeroDivisionError raised after `_position` was assigned). -/
def position_set (s : StepperMotor) (pos : Int) : OpResult :=
  let r1 := stop_move s
  let s2 := { r1.1 with position := pos }
  if s2.coilValues.length = 0 then
    ⟨some PyErr.zeroDivisionError, s2, r1.2 ++ [Event.posSet pos]⟩
  else
    let row := s2.coilValues.getD (pos % (s2.coilValues.length : Int)).toNat []
    let r2 := value_set s2 row
    ⟨r2.err, r2.state, r1.2 ++ [Event.posSet pos] ++ r2.trace⟩

/-- property `is_active`: `self.value != self._zero`. -/
def is_active (s : StepperMotor) : Bool :=
  value_get s != s.zero

/-- method `off`: `_stop_move`; set `value` to `_zero`. -/
def off (s : StepperMotor) : OpResult :=
  let r1 := stop_move s
  let r2 := value_set r1.1 r1.1.zero
  ⟨r2.err, r2.state, r1.2 ++ r2.trace⟩

/-- method `on`: `_stop_move`; set `value` to `_coil_values[_position]`,
a raw Python index of the stored (unnormalized) position, which is an
IndexError when the stored position is outside `[-len, len)`.  The index
is evaluated before the value setter runs, so on IndexError no pin is
written. -/
def «on» (s : StepperMotor) : OpResult :=
  let r1 := stop_move s
  match pyGet r1.1.coilValues r1.1.position with
  | none => ⟨some PyErr.indexError, r1.1, r1.2⟩
  | some row =>
    let r2 := value_set r1.1 row
    ⟨r2.err, r2.state, r1.2 ++ r2.trace⟩

/-- method `step`: `_stop_move`; advance or retreat `_position` modulo the
table length; set `value` to the table row at the new position (in range,
so a direct index). -/
def step (s : StepperMotor) (direction : Int) : OpResult :=
  let r1 := stop_move s
  let len : Int := r1.1.coilValues.length
  if len = 0 then ⟨some PyErr.zeroDivisionError, r1.1, r1.2⟩
  else
    let p := if direction > 0 then (r1.1.position + 1) % len
             else (r1.1.position + len - 1) % len
    let s2 := { r1.1 with position := p }
    let row := s2.coilValues.getD p.toNat []
    let r2 := value_set s2 row
    ⟨r2.err, r2.state, r1.2 ++ [Event.posSet p] ++ r2.trace⟩

/-- one iteration of the `_move_device` loop body: advance or retreat
`_position` modulo the table length, then `c._write(v)` pairwise over
`zip(self._coils, self._coil_values[self._position])` (direct writes, no
validation).  `direction` is 1 for forward, 0 for backward, as passed by
`forward`/`backward`.  Only meaningful for a nonempty table (an empty
table raises ZeroDivisionError inside the thread). -/
def move_step (s : StepperMotor) (direction : Nat) : StepperMotor × List Event :=
  let len : Int := s.coilValues.length
  let p := if direction > 0 then (s.position + 1) % len
           else (s.position + len - 1) % len
  let s1 := { s with position := p }
  let row := s1.coilValues.getD p.toNat []
  let r := writeZip s1.coils row
  ({ s1 with coils := r.1 }, Event.posSet p :: r.2)

/-- method `_move_device` with a finite count `n` and the stopping event
never set: the loop `for x in range(n)` runs all `n` iterations. -/
def move_device (s : StepperMotor) (direction : Nat) : Nat → StepperMotor × List Event
  | 0 => (s, [])
  | n + 1 =>
    let r1 := move_step s direction
    let r2 := move_device r1.1 direction n
    (r2.1, r1.2 ++ r2.2)

/-- method `forward`: `_stop_move`; create and start a motion thread
running `_move_device(1, n, fps)`; if not `background`, join it (modelled
as running the uncancelled loop synchronously) and drop the reference.
`fps` only affects the inter-step delay and is not modelled. -/
def forward (s : StepperMotor) (n : Nat) (background : Bool) : OpResult :=
  let r1 := stop_move s
  let s2 := { r1.1 with moveThread := true }
  if background then ⟨none, s2, r1.2 ++ [Event.taskStarted]⟩
  else
    let r2 := move_device s2 1 n
    ⟨none, { r2.1 with moveThread := false }, r1.2 ++ [Event.taskStarted] ++ r2.2⟩

/-- method `backward`: as `forward` but the thread runs
`_move_device(0, n, fps)`. -/
def backward (s : StepperMotor) (n : Nat) (background : Bool) : OpResult :=
  let r1 := stop_move s
  let s2 := { r1.1 with moveThread := true }
  if background then ⟨none, s2, r1.2 ++ [Event.taskStarted]⟩
  else
    let r2 := move_device s2 0 n
    ⟨none, { r2.1 with moveThread := false }, r1.2 ++ [Event.taskStarted] ++ r2.2⟩

/-- method `close`: if `self._coils` is a nonempty tuple, `_stop_move` and
release every coil handle; in every case set `self._coils = ()`. -/
def close (s : StepperMotor) : StepperMotor × List Event :=
  if s.coils ≠ [] then
    let r1 := stop_move s
    ({ r1.1 with coils := [] }, r1.2 ++ r1.1.coils.map (fun _c => Event.pinClosed))
  else ({ s with coils := [] }, [])

/-- property `closed`: `len(self._coils) == 0`. -/
def closed (s : StepperMotor) : Bool :=
  s.coils.length == 0

/-- the full-step table built in `__init__`: row i is 1 at column i and 0
elsewhere, for N rows. -/
def fullTable (n : Nat) : List (List Int) :=
  (List.range n).map (fun i => (List.range n).map (fun j => if i = j then (1 : Int) else 0))

/-- the half-step table built in `__init__` when `half_steps` is true:
2N rows, row i has entry j equal to
`min(1, full[i//2][j] + full[((i+1)//2) % N][j])`. -/
def halfTable (n : Nat) : List (List Int) :=
  (List.range (2 * n)).map (fun i => (List.range n).map (fun j =>
    min 1 (((fullTable n).getD (i / 2) []).getD j 0 +
           ((fullTable n).getD ((i + 1) / 2 % n) []).getD j 0)))

/-- constructor `__init__`: acquire one `DigitalOutputDevice` per pin
(each starts de-energized, level 0), build the coil table, set
`_position = 0`, `_zero` to N zeros, no motion thread, then run
`self.value = self._zero`. -/
def init (n : Nat) (half_steps : Bool) : OpResult :=
  let s0 : StepperMotor :=
    { coils := List.replicate n 0
      coilValues := if half_steps then halfTable n else fullTable n
      position := 0
      zero := List.replicate n 0
      moveThread := false }
  value_set s0 s0.zero

/-- well-formedness of an open motor: nonempty coil table, every row as
long as the coil tuple with every entry 0 or 1. -/
def WF (s : StepperMotor) : Prop :=
  s.coilValues ≠ [] ∧
  ∀ row ∈ s.coilValues, row.length = s.coils.length ∧ ∀ x ∈ row, x = 0 ∨ x = 1

instance (s : StepperMotor) : Decidable (WF s) := by
  unfold WF; infer_instance

end StepperMotor

namespace StepperMotor

lemma writeZip_fst (c v : List Int) :
    (writeZip c v).1 = v.take c.length ++ c.drop v.length := by
  induction c generalizing v with
  | nil => cases v <;> simp [writeZip]
  | cons a c ih =>
    cases v with
    | nil => simp [writeZip]
    | cons b v => simp [writeZip, ih]

lemma writeZip_snd (c v : List Int) :
    (writeZip c v).2 = (v.take c.length).map Event.pinWrite := by
  induction c generalizing v with
  | nil => cases v <;> simp [writeZip]
  | cons a c ih =>
    cases v with
    | nil => simp [writeZip]
    | cons b v => simp [writeZip, ih]

lemma writeZip_length (c v : List Int) : (writeZip c v).1.length = c.length := by
  rw [writeZip_fst]
  simp only [List.length_append, List.length_take, List.length_drop]
  omega

lemma writeZip_eq_of_length (c v : List Int) (h : v.length = c.length) :
    (writeZip c v).1 = v := by
  rw [writeZip_fst, ← h, List.take_length, List.drop_eq_nil_of_le h.ge, List.append_nil]

lemma stop_move_fst (s : StepperMotor) : (stop_move s).1 = { s with moveThread := false } := by
  cases s with
  | mk c t p z m => cases m <;> simp [stop_move]

lemma stop_move_snd (s : StepperMotor) :
    (stop_move s).2 = if s.moveThread then [Event.taskStopped] else [] := by
  unfold stop_move
  split <;> simp_all

lemma validPattern_of (v : List Int) (h : ∀ x ∈ v, x = 0 ∨ x = 1) :
    validPattern v = true := by
  simp only [validPattern, List.all_eq_true]
  intro x hx
  rcases h x hx with rfl | rfl <;> simp

lemma fullTable_length (n : Nat) : (fullTable n).length = n := by
  simp [fullTable]

lemma fullTable_getD (n i : Nat) (h : i < n) :
    (fullTable n).getD i [] =
      (List.range n).map (fun j => if i = j then (1 : Int) else 0) := by
  have hl : i < (fullTable n).length := by rw [fullTable_length]; exact h
  rw [List.getD_eq_getElem _ _ hl]
  simp [fullTable]

lemma fullTable_rows (n : Nat) :
    ∀ row ∈ fullTable n, row.length = n ∧ ∀ x ∈ row, x = 0 ∨ x = 1 := by
  intro row hrow
  simp only [fullTable, List.mem_map, List.mem_range] at hrow
  obtain ⟨i, _, rfl⟩ := hrow
  refine ⟨by simp, ?_⟩
  intro x hx
  simp only [List.mem_map, List.mem_range] at hx
  obtain ⟨j, _, rfl⟩ := hx
  by_cases hij : i = j <;> simp [hij]

lemma fullTable_entry (n k j : Nat) :
    ((fullTable n).getD k []).getD j 0 = 0 ∨ ((fullTable n).getD k []).getD j 0 = 1 := by
  by_cases hk : k < (fullTable n).length
  · have hmem : (fullTable n).getD k [] ∈ fullTable n := by
      rw [List.getD_eq_getElem _ _ hk]
      exact List.getElem_mem hk
    obtain ⟨_, hv⟩ := fullTable_rows n _ hmem
    by_cases hj : j < ((fullTable n).getD k []).length
    · have : ((fullTable n).getD k []).getD j 0 ∈ (fullTable n).getD k [] := by
        rw [List.getD_eq_getElem _ _ hj]
        exact List.getElem_mem hj
      exact hv _ this
    · rw [List.getD_eq_default _ _ (by omega)]
      exact Or.inl rfl
  · have hnil : (fullTable n).getD k [] = [] :=
      List.getD_eq_default _ _ (by omega)
    rw [hnil]
    exact Or.inl rfl

lemma halfTable_length (n : Nat) : (halfTable n).length = 2 * n := by
  simp [halfTable]

lemma halfTable_getD (n i : Nat) (h : i < 2 * n) :
    (halfTable n).getD i [] =
      (List.range n).map (fun j =>
        min 1 (((fullTable n).getD (i / 2) []).getD j 0 +
               ((fullTable n).getD ((i + 1) / 2 % n) []).getD j 0)) := by
  have hl : i < (halfTable n).length := by rw [halfTable_length]; exact h
  rw [List.getD_eq_getElem _ _ hl]
  simp [halfTable]

lemma halfTable_rows (n : Nat) :
    ∀ row ∈ halfTable n, row.length = n ∧ ∀ x ∈ row, x = 0 ∨ x = 1 := by
  intro row hrow
  simp only [halfTable, List.mem_map, List.mem_range] at hrow
  obtain ⟨i, _, rfl⟩ := hrow
  refine ⟨by simp, ?_⟩
  intro x hx
  simp only [List.mem_map, List.mem_range] at hx
  obtain ⟨j, _, rfl⟩ := hx
  rcases fullTable_entry n (i / 2) j with h1 | h1 <;>
    rcases fullTable_entry n ((i + 1) / 2 % n) j with h2 | h2 <;>
      rw [h1, h2] <;> norm_num

lemma WF_row_getD (s : StepperMotor) (hWF : WF s) (k : Nat)
    (hk : k < s.coilValues.length) :
    (s.coilValues.getD k []).length = s.coils.length ∧
    validPattern (s.coilValues.getD k []) = true := by
  have hmem : s.coilValues.getD k [] ∈ s.coilValues := by
    rw [List.getD_eq_getElem _ _ hk]
    exact List.getElem_mem hk
  obtain ⟨h1, h2⟩ := hWF.2 _ hmem
  exact ⟨h1, validPattern_of _ h2⟩

lemma emod_toNat_lt (p : Int) (len : Nat) (h : 0 < len) :
    (p % (len : Int)).toNat < len := by
  have h1 : 0 ≤ p % (len : Int) := Int.emod_nonneg p (by exact_mod_cast h.ne')
  have h2 : p % (len : Int) < len := Int.emod_lt_of_pos p (by exact_mod_cast h)
  omega

end StepperMotor

namespace StepperMotor


lemma value_set_row (s : StepperMotor) (v : List Int) (hv : validPattern v = true)
    (hl : v.length = s.coils.length) :
    value_set s v = ⟨none, { s with moveThread := false, coils := v },
      (if s.moveThread then [Event.taskStopped] else []) ++ v.map Event.pinWrite⟩ := by
  have hz : (writeZip s.coils v).1 = v := writeZip_eq_of_length _ _ hl
  have hz2 : (writeZip s.coils v).2 = v.map Event.pinWrite := by
    rw [writeZip_snd, ← hl, List.take_length]
  cases s with
  | mk c t p z m =>
    cases m <;> simp_all [value_set, stop_move]





lemma position_set_spec (s : StepperMotor) (pos : Int) (hWF : WF s) :
    position_set s pos =
      ⟨none,
       { s with moveThread := false, position := pos,
                coils := s.coilValues.getD (pos % (s.coilValues.length : Int)).toNat [] },
       (if s.moveThread then [Event.taskStopped] else []) ++ [Event.posSet pos] ++
         (s.coilValues.getD (pos % (s.coilValues.length : Int)).toNat []).map
           Event.pinWrite⟩ := by
  have hlen : 0 < s.coilValues.length := List.length_pos.mpr hWF.1
  obtain ⟨hrl, hrv⟩ := WF_row_getD s hWF _ (emod_toNat_lt pos _ hlen)
  have hrow := value_set_row { s with moveThread := false, position := pos }
    (s.coilValues.getD (pos % (s.coilValues.length : Int)).toNat []) hrv hrl
  cases s with
  | mk c t p z m =>
    cases m <;> simp_all [position_set, stop_move, Nat.pos_iff_ne_zero]



/-- true exactly on position-assignment events; used to count loop steps. -/
def isStepEvent : Event → Bool
  | Event.posSet _ => true
  | _ => false



/-- the new value of `_position` computed by `step`, as written in the
source. -/
def stepPos (s : StepperMotor) (d : Int) : Int :=
  if d > 0 then (s.position + 1) % (s.coilValues.length : Int)
  else (s.position + (s.coilValues.length : Int) - 1) % (s.coilValues.length : Int)

lemma stepPos_toNat_lt (s : StepperMotor) (d : Int) (h : 0 < s.coilValues.length) :
    (stepPos s d).toNat < s.coilValues.length := by
  unfold stepPos
  split <;> exact emod_toNat_lt _ _ h

lemma step_spec (s : StepperMotor) (d : Int) (hWF : WF s) :
    step s d =
      ⟨none,
       { s with moveThread := false, position := stepPos s d,
                coils := s.coilValues.getD (stepPos s d).toNat [] },
       (if s.moveThread then [Event.taskStopped] else []) ++ [Event.posSet (stepPos s d)] ++
         (s.coilValues.getD (stepPos s d).toNat []).map Event.pinWrite⟩ := by
  have hlen : 0 < s.coilValues.length := List.length_pos.mpr hWF.1
  obtain ⟨hrl, hrv⟩ := WF_row_getD s hWF _ (stepPos_toNat_lt s d hlen)
  have hrow := value_set_row { s with moveThread := false, position := stepPos s d }
    (s.coilValues.getD (stepPos s d).toNat []) hrv hrl
  cases s with
  | mk c t p z m =>
    by_cases hd : d > 0 <;>
      cases m <;> simp_all [step, stepPos, stop_move, Nat.pos_iff_ne_zero]



lemma pyGet_in_range {α : Type} (l : List α) (d : α) (i : Int)
    (h1 : -(l.length : Int) ≤ i) (h2 : i < (l.length : Int)) :
    pyGet l i = some (l.getD (i % (l.length : Int)).toNat d) := by
  unfold pyGet
  by_cases h0 : 0 ≤ i
  · rw [if_pos h0]
    have hmod : i % (l.length : Int) = i := Int.emod_eq_of_lt h0 h2
    rw [hmod, List.getElem?_eq_getElem (by omega), List.getD_eq_getElem _ _ (by omega)]
  · rw [if_neg h0, if_pos (by omega)]
    have hmod : i % (l.length : Int) = i + l.length := by
      have h3 : (i + l.length) % (l.length : Int) = i % (l.length : Int) := by simp
      have h4 : (i + l.length) % (l.length : Int) = i + l.length :=
        Int.emod_eq_of_lt (by omega) (by omega)
      omega
    rw [hmod, List.getElem?_eq_getElem (by omega), List.getD_eq_getElem _ _ (by omega)]

lemma pyGet_out_of_range {α : Type} (l : List α) (i : Int)
    (h : i < -(l.length : Int) ∨ (l.length : Int) ≤ i) :
    pyGet l i = none := by
  unfold pyGet
  rcases h with h | h
  · rw [if_neg (by omega), if_neg (by omega)]
  · rw [if_pos (by omega)]
    exact List.getElem?_eq_none (by omega)



lemma on_spec_ok (s : StepperMotor) (hWF : WF s)
    (h1 : -(s.coilValues.length : Int) ≤ s.position)
    (h2 : s.position < (s.coilValues.length : Int)) :
    «on» s =
      ⟨none,
       { s with moveThread := false,
                coils := s.coilValues.getD
                  (s.position % (s.coilValues.length : Int)).toNat [] },
       (if s.moveThread then [Event.taskStopped] else []) ++
         (s.coilValues.getD (s.position % (s.coilValues.length : Int)).toNat []).map
           Event.pinWrite⟩ := by
  have hlen : 0 < s.coilValues.length := List.length_pos.mpr hWF.1
  obtain ⟨hrl, hrv⟩ := WF_row_getD s hWF _ (emod_toNat_lt s.position _ hlen)
  have hget := pyGet_in_range s.coilValues [] s.position h1 h2
  have hrow := value_set_row { s with moveThread := false }
    (s.coilValues.getD (s.position % (s.coilValues.length : Int)).toNat []) hrv hrl
  cases s with
  | mk c t p z m =>
    cases m <;> simp_all [«on», stop_move]

lemma on_spec_err (s : StepperMotor)
    (h : s.position < -(s.coilValues.length : Int) ∨
         (s.coilValues.length : Int) ≤ s.position) :
    «on» s =
      ⟨some PyErr.indexError, { s with moveThread := false },
       if s.moveThread then [Event.taskStopped] else []⟩ := by
  have hget := pyGet_out_of_range s.coilValues s.position h
  cases s with
  | mk c t p z m =>
    cases m <;> simp_all [«on», stop_move]





lemma move_device_succ (s : StepperMotor) (dir k : Nat) :
    move_device s dir (k + 1) =
      ((move_device (move_step s dir).1 dir k).1,
       (move_step s dir).2 ++ (move_device (move_step s dir).1 dir k).2) := rfl

lemma countP_map_pinWrite (l : List Int) :
    (l.map Event.pinWrite).countP isStepEvent = 0 := by
  rw [List.countP_eq_zero]
  intro a ha
  obtain ⟨v, _, rfl⟩ := List.mem_map.mp ha
  simp [isStepEvent]

lemma move_step_trace_shape (s : StepperMotor) (dir : Nat) :
    ∃ p vs, (move_step s dir).2 = Event.posSet p :: (vs : List Int).map Event.pinWrite := by
  refine ⟨(if dir > 0 then (s.position + 1) % (s.coilValues.length : Int)
           else (s.position + (s.coilValues.length : Int) - 1) %
             (s.coilValues.length : Int)),
          (s.coilValues.getD
            ((if dir > 0 then (s.position + 1) % (s.coilValues.length : Int)
              else (s.position + (s.coilValues.length : Int) - 1) %
                (s.coilValues.length : Int)).toNat) []).take s.coils.length, ?_⟩
  simp only [move_step]
  rw [writeZip_snd]

lemma move_step_trace (s : StepperMotor) (dir : Nat) :
    (move_step s dir).2.countP isStepEvent = 1 ∧
    ∀ e ∈ (move_step s dir).2, e ≠ Event.taskStopped ∧ e ≠ Event.taskStarted := by
  obtain ⟨p, vs, hshape⟩ := move_step_trace_shape s dir
  rw [hshape]
  constructor
  · simp [List.countP_cons, isStepEvent, countP_map_pinWrite]
  · intro e he
    rcases List.mem_cons.mp he with rfl | he
    · simp
    · obtain ⟨v, _, rfl⟩ := List.mem_map.mp he
      simp

lemma move_device_trace (dir k : Nat) : ∀ s : StepperMotor,
    (move_device s dir k).2.countP isStepEvent = k ∧
    ∀ e ∈ (move_device s dir k).2, e ≠ Event.taskStopped ∧ e ≠ Event.taskStarted := by
  induction k with
  | zero => intro s; simp [move_device]
  | succ k ih =>
    intro s
    obtain ⟨h1, h2⟩ := move_step_trace s dir
    obtain ⟨h3, h4⟩ := ih (move_step s dir).1
    rw [move_device_succ]
    constructor
    · simp only [List.countP_append, h1, h3]
      omega
    · intro e he
      rcases List.mem_append.mp he with he | he
      · exact h2 e he
      · exact h4 e he

lemma move_step_one (s : StepperMotor) (hWF : WF s) :
    move_step s 1 =
      ({ s with position := (s.position + 1) % (s.coilValues.length : Int),
                coils := s.coilValues.getD
                  (((s.position + 1) % (s.coilValues.length : Int)).toNat) [] },
       Event.posSet ((s.position + 1) % (s.coilValues.length : Int)) ::
         (s.coilValues.getD
           (((s.position + 1) % (s.coilValues.length : Int)).toNat) []).map
           Event.pinWrite) := by
  have hlen : 0 < s.coilValues.length := List.length_pos.mpr hWF.1
  obtain ⟨hrl, hrv⟩ := WF_row_getD s hWF _ (emod_toNat_lt (s.position + 1) _ hlen)
  have hz := writeZip_eq_of_length s.coils _ hrl
  have htake : (s.coilValues.getD
      (((s.position + 1) % (s.coilValues.length : Int)).toNat) []).take s.coils.length =
      s.coilValues.getD (((s.position + 1) % (s.coilValues.length : Int)).toNat) [] := by
    rw [← hrl, List.take_length]
  have hz2 := writeZip_snd s.coils
    (s.coilValues.getD (((s.position + 1) % (s.coilValues.length : Int)).toNat) [])
  cases s with
  | mk c t p z m => simp_all [move_step]

lemma move_step_one_WF (s : StepperMotor) (hWF : WF s) : WF (move_step s 1).1 := by
  have hlen : 0 < s.coilValues.length := List.length_pos.mpr hWF.1
  obtain ⟨hrl, _⟩ := WF_row_getD s hWF _ (emod_toNat_lt (s.position + 1) _ hlen)
  rw [move_step_one s hWF]
  constructor
  · exact hWF.1
  · intro row hrow
    obtain ⟨h1, h2⟩ := hWF.2 row hrow
    exact ⟨by rw [h1, ← hrl], h2⟩





lemma move_device_one_state (k : Nat) : ∀ s : StepperMotor, WF s → 0 < k →
    (move_device s 1 k).1 =
      { s with position := (s.position + k) % (s.coilValues.length : Int),
               coils := s.coilValues.getD
                 (((s.position + k) % (s.coilValues.length : Int)).toNat) [] } := by
  induction k with
  | zero => intro s _ h; omega
  | succ k ih =>
    intro s hWF _
    have hms := move_step_one s hWF
    have hWF' := move_step_one_WF s hWF
    rw [move_device_succ]
    by_cases hk : k = 0
    · subst hk
      simp only [move_device, hms]
      norm_num
    · have hrec := ih (move_step s 1).1 hWF' (Nat.pos_of_ne_zero hk)
      rw [hrec, hms]
      have hmod : ((s.position + 1) % (s.coilValues.length : Int) + k) %
          (s.coilValues.length : Int) =
          (s.position + (k + 1 : Nat)) % (s.coilValues.length : Int) := by
        rw [Int.emod_add_emod]
        push_cast
        ring_nf
      simp only [hmod]


end StepperMotor

namespace StepperMotor

lemma set_coils_nil_self (s : StepperMotor) (h : s.coils = []) :
    { s with coils := ([] : List Int) } = s := by
  cases s
  simp_all

lemma close_fst_coils (s : StepperMotor) : ((close s).1).coils = [] := by
  unfold close
  split <;> rfl

lemma value_set_err_eq (s : StepperMotor) (v : List Int) :
    (value_set s v).err =
      if validPattern v then none else some PyErr.nameErrorOutputDeviceBadValue := by
  unfold value_set
  split <;> simp_all

lemma row_valid_getD (t : List (List Int))
    (hrows : ∀ row ∈ t, ∀ x ∈ row, x = 0 ∨ x = 1) (k : Nat) :
    validPattern (t.getD k []) = true := by
  by_cases hk : k < t.length
  · have hmem : t.getD k [] ∈ t := by
      rw [List.getD_eq_getElem _ _ hk]
      exact List.getElem_mem hk
    exact validPattern_of _ (hrows _ hmem)
  · rw [List.getD_eq_default _ _ (by omega)]
    rfl

lemma WF_position_set (s : StepperMotor) (pos : Int) (hWF : WF s) :
    WF (position_set s pos).state := by
  have hlen : 0 < s.coilValues.length := List.length_pos.mpr hWF.1
  obtain ⟨hrl, _⟩ := WF_row_getD s hWF _ (emod_toNat_lt pos _ hlen)
  rw [position_set_spec s pos hWF]
  unfold WF
  refine ⟨hWF.1, ?_⟩
  intro row hrow
  obtain ⟨h1, h2⟩ := hWF.2 row hrow
  exact ⟨by rw [h1, ← hrl], h2⟩

lemma forward_sync_spec (s : StepperMotor) (n : Nat) (hWF : WF s) (hn : 0 < n) :
    (forward s n false).err = none ∧
    (forward s n false).state =
      { s with moveThread := false,
               position := (s.position + n) % (s.coilValues.length : Int),
               coils := s.coilValues.getD
                 (((s.position + n) % (s.coilValues.length : Int)).toNat) [] } ∧
    (forward s n false).trace.countP isStepEvent = n := by
  have hWF2 : WF { s with moveThread := true } := ⟨hWF.1, hWF.2⟩
  have hmv := move_device_one_state n { s with moveThread := true } hWF2 hn
  have htr := (move_device_trace 1 n { s with moveThread := true }).1
  cases s with
  | mk c t p z m =>
    cases m <;>
      simp_all [forward, stop_move, List.countP_append, List.countP_cons, isStepEvent]

end StepperMotor

namespace StepperMotor

lemma head_stop (s : StepperMotor) (h : s.moveThread = true) :
    ((stop_move s).2).head? = some Event.taskStopped := by
  simp [stop_move_snd, h]

lemma head_stop_append (s : StepperMotor) (h : s.moveThread = true) (r : List Event) :
    ((stop_move s).2 ++ r).head? = some Event.taskStopped := by
  simp [stop_move_snd, h]

lemma started_not_mem_stop (s : StepperMotor) :
    Event.taskStarted ∉ (stop_move s).2 := by
  rw [stop_move_snd]
  split <;> simp

lemma started_not_mem_value_set (s : StepperMotor) (v : List Int) :
    Event.taskStarted ∉ (value_set s v).trace := by
  simp only [value_set]
  split
  · intro hmem
    rw [writeZip_snd] at hmem
    rcases List.mem_append.mp hmem with hmem | hmem
    · exact started_not_mem_stop s hmem
    · obtain ⟨w, _, hw⟩ := List.mem_map.mp hmem
      cases hw
  · simp

lemma started_not_mem_position_set (s : StepperMotor) (pos : Int) :
    Event.taskStarted ∉ (position_set s pos).trace := by
  simp only [position_set]
  split
  · intro hmem
    rcases List.mem_append.mp hmem with hmem | hmem
    · exact started_not_mem_stop s hmem
    · simp at hmem
  · intro hmem
    rcases List.mem_append.mp hmem with hmem | hmem
    · rcases List.mem_append.mp hmem with hmem | hmem
      · exact started_not_mem_stop s hmem
      · simp at hmem
    · exact started_not_mem_value_set _ _ hmem

lemma started_not_mem_step (s : StepperMotor) (d : Int) :
    Event.taskStarted ∉ (step s d).trace := by
  simp only [step]
  split
  · exact started_not_mem_stop s
  · intro hmem
    rcases List.mem_append.mp hmem with hmem | hmem
    · rcases List.mem_append.mp hmem with hmem | hmem
      · exact started_not_mem_stop s hmem
      · simp at hmem
    · exact started_not_mem_value_set _ _ hmem

lemma started_not_mem_off (s : StepperMotor) :
    Event.taskStarted ∉ (off s).trace := by
  simp only [off]
  intro hmem
  rcases List.mem_append.mp hmem with hmem | hmem
  · exact started_not_mem_stop s hmem
  · exact started_not_mem_value_set _ _ hmem

lemma started_not_mem_on (s : StepperMotor) :
    Event.taskStarted ∉ («on» s).trace := by
  simp only [«on»]
  split
  · exact started_not_mem_stop s
  · intro hmem
    rcases List.mem_append.mp hmem with hmem | hmem
    · exact started_not_mem_stop s hmem
    · exact started_not_mem_value_set _ _ hmem

lemma started_not_mem_close (s : StepperMotor) :
    Event.taskStarted ∉ (close s).2 := by
  simp only [close]
  split
  · intro hmem
    rcases List.mem_append.mp hmem with hmem | hmem
    · exact started_not_mem_stop s hmem
    · obtain ⟨w, _, hw⟩ := List.mem_map.mp hmem
      cases hw
  · simp

end StepperMotor

namespace StepperMotor

lemma head_stop_append_append (s : StepperMotor) (h : s.moveThread = true)
    (r1 r2 : List Event) :
    (((stop_move s).2 ++ r1) ++ r2).head? = some Event.taskStopped := by
  simp [stop_move_snd, h]

lemma head_position_set (s : StepperMotor) (hrun : s.moveThread = true) (pos : Int) :
    (position_set s pos).trace.head? = some Event.taskStopped := by
  simp only [position_set]
  split
  · exact head_stop_append s hrun _
  · exact head_stop_append_append s hrun _ _

lemma head_value_set (s : StepperMotor) (hrun : s.moveThread = true) (v : List Int)
    (hv : validPattern v = true) :
    (value_set s v).trace.head? = some Event.taskStopped := by
  simp only [value_set]
  rw [if_pos hv]
  exact head_stop_append s hrun _

lemma head_step (s : StepperMotor) (hrun : s.moveThread = true) (d : Int) :
    (step s d).trace.head? = some Event.taskStopped := by
  simp only [step]
  split
  · exact head_stop s hrun
  · exact head_stop_append_append s hrun _ _

lemma head_off (s : StepperMotor) (hrun : s.moveThread = true) :
    (off s).trace.head? = some Event.taskStopped := by
  simp only [off]
  exact head_stop_append s hrun _

lemma head_on (s : StepperMotor) (hrun : s.moveThread = true) :
    («on» s).trace.head? = some Event.taskStopped := by
  simp only [«on»]
  split
  · exact head_stop s hrun
  · exact head_stop_append s hrun _

lemma head_close (s : StepperMotor) (hrun : s.moveThread = true) (hc : s.coils ≠ []) :
    (close s).2.head? = some Event.taskStopped := by
  simp only [close]
  rw [if_pos hc]
  exact head_stop_append s hrun _

lemma forward_trace_shape (s : StepperMotor) (hrun : s.moveThread = true)
    (n : Nat) (b : Bool) :
    ∃ rest, (forward s n b).trace = Event.taskStopped :: Event.taskStarted :: rest ∧
      Event.taskStopped ∉ rest ∧ Event.taskStarted ∉ rest := by
  have hst : (stop_move s).2 = [Event.taskStopped] := by
    rw [stop_move_snd, hrun]
    rfl
  simp only [forward]
  split
  · exact ⟨[], by rw [hst]; rfl, by simp, by simp⟩
  · refine ⟨(move_device { (stop_move s).1 with moveThread := true } 1 n).2,
      by rw [hst]; rfl, ?_, ?_⟩
    · intro hmem
      exact ((move_device_trace 1 n _).2 _ hmem).1 rfl
    · intro hmem
      exact ((move_device_trace 1 n _).2 _ hmem).2 rfl

lemma backward_trace_shape (s : StepperMotor) (hrun : s.moveThread = true)
    (n : Nat) (b : Bool) :
    ∃ rest, (backward s n b).trace = Event.taskStopped :: Event.taskStarted :: rest ∧
      Event.taskStopped ∉ rest ∧ Event.taskStarted ∉ rest := by
  have hst : (stop_move s).2 = [Event.taskStopped] := by
    rw [stop_move_snd, hrun]
    rfl
  simp only [backward]
  split
  · exact ⟨[], by rw [hst]; rfl, by simp, by simp⟩
  · refine ⟨(move_device { (stop_move s).1 with moveThread := true } 0 n).2,
      by rw [hst]; rfl, ?_, ?_⟩
    · intro hmem
      exact ((move_device_trace 0 n _).2 _ hmem).1 rfl
    · intro hmem
      exact ((move_device_trace 0 n _).2 _ hmem).2 rfl

end StepperMotor

namespace StepperMotor

lemma position_set_err_none (s : StepperMotor) (hne : s.coilValues ≠ [])
    (hrows : ∀ row ∈ s.coilValues, ∀ x ∈ row, x = 0 ∨ x = 1) (pos : Int) :
    (position_set s pos).err = none := by
  have h0 : ¬(s.coilValues.length = 0) := fun h => hne (List.length_eq_zero.mp h)
  simp only [position_set, stop_move_fst]
  rw [if_neg h0]
  simp only [value_set_err_eq]
  rw [if_pos (row_valid_getD s.coilValues hrows _)]

lemma step_err_none (s : StepperMotor) (hne : s.coilValues ≠ [])
    (hrows : ∀ row ∈ s.coilValues, ∀ x ∈ row, x = 0 ∨ x = 1) (d : Int) :
    (step s d).err = none := by
  have h0 : ¬((s.coilValues.length : Int) = 0) := by
    simpa using fun h => hne (List.length_eq_zero.mp h)
  simp only [step, stop_move_fst]
  rw [if_neg h0]
  simp only [value_set_err_eq]
  rw [if_pos (row_valid_getD s.coilValues hrows _)]

lemma forward_err_none (s : StepperMotor) (n : Nat) (b : Bool) :
    (forward s n b).err = none := by
  simp only [forward]
  split <;> rfl

lemma backward_err_none (s : StepperMotor) (n : Nat) (b : Bool) :
    (backward s n b).err = none := by
  simp only [backward]
  split <;> rfl

lemma pinWrite_not_mem_stop (s : StepperMotor) (w : Int) :
    Event.pinWrite w ∉ (stop_move s).2 := by
  rw [stop_move_snd]
  split <;> simp

lemma pinWrite_not_mem_value_set_closed (s : StepperMotor) (hc : s.coils = [])
    (v : List Int) (w : Int) :
    Event.pinWrite w ∉ (value_set s v).trace := by
  have hz : (writeZip ((stop_move s).1).coils v).2 = [] := by
    rw [stop_move_fst]
    show (writeZip s.coils v).2 = []
    rw [writeZip_snd, hc]
    simp
  simp only [value_set]
  split
  · intro hmem
    rw [hz] at hmem
    rcases List.mem_append.mp hmem with hmem | hmem
    · exact pinWrite_not_mem_stop s w hmem
    · simp at hmem
  · simp

lemma pinWrite_not_mem_position_set_closed (s : StepperMotor) (hc : s.coils = [])
    (pos : Int) (w : Int) :
    Event.pinWrite w ∉ (position_set s pos).trace := by
  simp only [position_set]
  split
  · intro hmem
    rcases List.mem_append.mp hmem with hmem | hmem
    · exact pinWrite_not_mem_stop s w hmem
    · simp at hmem
  · intro hmem
    rcases List.mem_append.mp hmem with hmem | hmem
    · rcases List.mem_append.mp hmem with hmem | hmem
      · exact pinWrite_not_mem_stop s w hmem
      · simp at hmem
    · exact pinWrite_not_mem_value_set_closed _ (by rw [stop_move_fst]; exact hc) _ w hmem

lemma pinWrite_not_mem_step_closed (s : StepperMotor) (hc : s.coils = [])
    (d : Int) (w : Int) :
    Event.pinWrite w ∉ (step s d).trace := by
  simp only [step]
  split
  · exact pinWrite_not_mem_stop s w
  · intro hmem
    rcases List.mem_append.mp hmem with hmem | hmem
    · rcases List.mem_append.mp hmem with hmem | hmem
      · exact pinWrite_not_mem_stop s w hmem
      · simp at hmem
    · exact pinWrite_not_mem_value_set_closed _ (by rw [stop_move_fst]; exact hc) _ w hmem

end StepperMotor

open StepperMotor

/-- C1 counterexample: on a 4-coil full-step controller, `position = -1`
followed by reading `position` returns -1, not `(-1) mod 4 = 3`: the
setter stores the raw argument. -/
theorem C1_counterexample :
    position_get (position_set (init 4 false).state (-1)).state = -1 ∧
    (-1 : Int) % (((init 4 false).state.coilValues.length : Int)) = 3 ∧
    position_get (position_set (init 4 false).state (-1)).state ≠
      (-1 : Int) % (((init 4 false).state.coilValues.length : Int)) := by
  refine ⟨rfl, by decide, by decide⟩

/-- C1 (amended): for every integer pos, `position = pos` on an open
well-formed controller raises nothing, a subsequent `position` read
returns the raw pos (not normalized), and the per-coil value equals
`CoilTable[pos mod len]` (the write does use proper modulo). -/
theorem C1_amended (s : StepperMotor) (pos : Int) (hWF : WF s) :
    (position_set s pos).err = none ∧
    position_get (position_set s pos).state = pos ∧
    value_get (position_set s pos).state =
      s.coilValues.getD ((pos % (s.coilValues.length : Int)).toNat) [] := by
  rw [position_set_spec s pos hWF]
  exact ⟨rfl, rfl, rfl⟩

/-- C1 witness: the amended statement at a 4-coil full-step controller
and pos = -7. -/
theorem C1_witness :
    WF (init 4 false).state ∧
    ((position_set (init 4 false).state (-7)).err = none ∧
     position_get (position_set (init 4 false).state (-7)).state = -7 ∧
     value_get (position_set (init 4 false).state (-7)).state =
       (init 4 false).state.coilValues.getD
         (((-7 : Int) % (((init 4 false).state.coilValues.length : Int))).toNat) []) :=
  ⟨by decide, C1_amended _ _ (by decide)⟩

/-- C3 (code bug evidence): a pattern with an element outside 0/1 makes
the value setter fail before any state mutation — the returned state is
the argument state unchanged and the event trace is empty (no pin write,
no task cancellation) — but the exception is NameError, because the raise
statement names `OutputDeviceBadValue`, which `stepper.py` never imports,
not the intended bad-value error. -/
theorem C3_invalid_value (s : StepperMotor) (v : List Int)
    (hv : validPattern v = false) :
    value_set s v = ⟨some PyErr.nameErrorOutputDeviceBadValue, s, []⟩ := by
  simp only [value_set]
  rw [if_neg (by simp [hv])]

/-- C3 witness: the failing input (2,) on a controller with a running
motion task: the call fails, the task is not cancelled, nothing is
written. -/
theorem C3_witness :
    validPattern [2] = false ∧
    value_set (forward (init 4 false).state 3 true).state [2] =
      ⟨some PyErr.nameErrorOutputDeviceBadValue,
       (forward (init 4 false).state 3 true).state, []⟩ :=
  ⟨by decide, C3_invalid_value _ _ (by decide)⟩

/-- C7: writing a valid pattern through the value setter never changes
the reported position (decoupling invariant). -/
theorem C7_value_set_keeps_position (s : StepperMotor) (v : List Int)
    (hv : validPattern v = true) :
    position_get (value_set s v).state = position_get s := by
  simp only [value_set]
  rw [if_pos hv]
  simp [position_get, stop_move_fst]

/-- C7 witness: writing (0,1,1,0) directly does not move the reported
position. -/
theorem C7_witness :
    validPattern [0, 1, 1, 0] = true ∧
    position_get (value_set (init 4 false).state [0, 1, 1, 0]).state =
      position_get (init 4 false).state :=
  ⟨by decide, C7_value_set_keeps_position _ _ (by decide)⟩

/-- C4: for every N at least 1, the full-step table has exactly N
patterns with pattern i one-hot at index i, and the half-step table has
2N patterns with pattern i the element-wise min-capped sum (logical OR)
of full-step patterns i/2 and ((i+1)/2) mod N. -/
theorem C4_coil_tables (n : Nat) (hn : 1 ≤ n) :
    (fullTable n).length = n ∧
    (∀ i, i < n → ((fullTable n).getD i []).length = n ∧
      ∀ j, j < n → ((fullTable n).getD i []).getD j 0 = if j = i then 1 else 0) ∧
    (halfTable n).length = 2 * n ∧
    (∀ i, i < 2 * n → (halfTable n).getD i [] =
      List.zipWith (fun a b => min 1 (a + b))
        ((fullTable n).getD (i / 2) []) ((fullTable n).getD ((i + 1) / 2 % n) [])) := by
  refine ⟨fullTable_length n, ?_, halfTable_length n, ?_⟩
  · intro i hi
    rw [fullTable_getD n i hi]
    refine ⟨by simp, ?_⟩
    intro j hj
    rw [List.getD_eq_getElem _ _ (by simpa using hj)]
    simp only [List.getElem_map, List.getElem_range]
    by_cases h : i = j
    · simp [h]
    · rw [if_neg h, if_neg (fun hh => h hh.symm)]
  · intro i hi
    have hi2 : i / 2 < n := by omega
    have hi3 : (i + 1) / 2 % n < n := Nat.mod_lt _ (by omega)
    have hrA := fullTable_getD n (i / 2) hi2
    have hrB := fullTable_getD n ((i + 1) / 2 % n) hi3
    rw [halfTable_getD n i hi]
    apply List.ext_getElem
    · rw [List.length_zipWith, hrA, hrB]
      simp
    · intro k hk1 hk2
      have hk : k < n := by simpa using hk1
      have hlA : k < ((fullTable n).getD (i / 2) []).length := by
        rw [hrA]
        simpa using hk
      have hlB : k < ((fullTable n).getD ((i + 1) / 2 % n) []).length := by
        rw [hrB]
        simpa using hk
      simp only [List.getElem_map, List.getElem_range, List.getElem_zipWith]
      rw [List.getD_eq_getElem _ _ hlA, List.getD_eq_getElem _ _ hlB]

/-- C4 witness: the tables for the usual four-coil motor. -/
theorem C4_witness :
    1 ≤ 4 ∧ (fullTable 4).length = 4 ∧ (halfTable 4).length = 2 * 4 ∧
    (halfTable 4).getD 3 [] =
      List.zipWith (fun a b => min 1 (a + b))
        ((fullTable 4).getD 1 []) ((fullTable 4).getD 2 []) :=
  ⟨by decide, (C4_coil_tables 4 (by decide)).1, (C4_coil_tables 4 (by decide)).2.2.1,
   (C4_coil_tables 4 (by decide)).2.2.2 3 (by decide)⟩

/-- C5: from a normalized position p, step with positive direction moves
to (p+1) mod len, any other direction to (p-1+len) mod len, and the coil
value becomes the table row at the new position. -/
theorem C5_step (s : StepperMotor) (d : Int) (hWF : WF s)
    (_h1 : 0 ≤ s.position) (_h2 : s.position < (s.coilValues.length : Int)) :
    (step s d).err = none ∧
    (0 < d → position_get (step s d).state =
      (s.position + 1) % (s.coilValues.length : Int)) ∧
    (d ≤ 0 → position_get (step s d).state =
      (s.position - 1 + (s.coilValues.length : Int)) % (s.coilValues.length : Int)) ∧
    value_get (step s d).state =
      s.coilValues.getD ((position_get (step s d).state).toNat) [] := by
  rw [step_spec s d hWF]
  refine ⟨rfl, ?_, ?_, rfl⟩
  · intro hd
    simp [position_get, stepPos, hd]
  · intro hd
    have hd' : ¬d > 0 := by omega
    simp only [position_get, stepPos, if_neg hd']
    congr 1
    ring
  
/-- C5 witness: stepping forward then backward from the initial
position of a 4-coil controller. -/
theorem C5_witness :
    (WF (init 4 false).state ∧ 0 ≤ (init 4 false).state.position ∧
      (init 4 false).state.position < ((init 4 false).state.coilValues.length : Int)) ∧
    (0 < (1 : Int) → position_get (step (init 4 false).state 1).state =
      ((init 4 false).state.position + 1) %
        ((init 4 false).state.coilValues.length : Int)) ∧
    ((-1 : Int) ≤ 0 → position_get (step (init 4 false).state (-1)).state =
      ((init 4 false).state.position - 1 + ((init 4 false).state.coilValues.length : Int)) %
        ((init 4 false).state.coilValues.length : Int)) :=
  ⟨⟨by decide, by decide, by decide⟩,
   (C5_step (init 4 false).state 1 (by decide) (by decide) (by decide)).2.1,
   (C5_step (init 4 false).state (-1) (by decide) (by decide) (by decide)).2.2.1⟩

/-- C6 counterexample: forward(0, background=False) on a fresh 4-coil
full-step controller executes zero steps and returns with the coils
still all de-energized, so the final Value is not CoilTable[(0+0) mod 4]
= (1,0,0,0) as the claim (quantified over every non-negative count,
including 0) requires. -/
theorem C6_counterexample :
    (forward (init 4 false).state 0 false).err = none ∧
    position_get (forward (init 4 false).state 0 false).state = 0 ∧
    value_get (forward (init 4 false).state 0 false).state = [0, 0, 0, 0] ∧
    (init 4 false).state.coilValues.getD
      ((((0 : Int) + (0 : Nat)) %
        (((init 4 false).state.coilValues.length : Int))).toNat) [] = [1, 0, 0, 0] ∧
    value_get (forward (init 4 false).state 0 false).state ≠
      (init 4 false).state.coilValues.getD
        ((((0 : Int) + (0 : Nat)) %
          (((init 4 false).state.coilValues.length : Int))).toNat) [] := by
  refine ⟨rfl, rfl, rfl, by decide, by decide⟩

/-- C6 (amended): for every count n at least 1, forward(n, rate,
background=False) runs the whole motion before returning (modelled by the
synchronous join; the trace holds exactly n step events), raises nothing,
drops the thread reference, and leaves Position = (p+n) mod len with
Value = CoilTable[Position]; for n = 0 the call returns with Position and
Value unchanged.  In particular forward(10, 100, False) on a 4-coil
full-step controller starting at position 0 ends at position 2. -/
theorem C6_forward_sync (s : StepperMotor) (n : Nat) (hWF : WF s) (hn : 1 ≤ n) :
    ((forward s n false).err = none ∧
     position_get (forward s n false).state =
       (s.position + n) % (s.coilValues.length : Int) ∧
     value_get (forward s n false).state =
       s.coilValues.getD
         (((s.position + n) % (s.coilValues.length : Int)).toNat) [] ∧
     (forward s n false).state.moveThread = false ∧
     (forward s n false).trace.countP isStepEvent = n) ∧
    ((forward s 0 false).state = { s with moveThread := false } ∧
     (forward s 0 false).trace.countP isStepEvent = 0) ∧
    position_get (forward (init 4 false).state 10 false).state = 2 := by
  obtain ⟨h1, h2, h3⟩ := forward_sync_spec s n hWF hn
  refine ⟨⟨h1, ?_, ?_, ?_, h3⟩, ⟨?_, ?_⟩, by decide⟩
  · rw [h2]
    exact rfl
  · rw [h2]
    exact rfl
  · rw [h2]
  · cases s with
    | mk c t p z m => cases m <;> simp [forward, move_device, stop_move]
  · cases s with
    | mk c t p z m => cases m <;> simp [forward, move_device, stop_move, isStepEvent]

/-- C6 witness: forward(3, background=False) from the initial state of a
4-coil full-step controller lands on position 3 with coil 3 energized. -/
theorem C6_witness :
    (WF (init 4 false).state ∧ 1 ≤ 3) ∧
    (forward (init 4 false).state 3 false).err = none ∧
    position_get (forward (init 4 false).state 3 false).state =
      ((init 4 false).state.position + (3 : Nat)) %
        (((init 4 false).state.coilValues.length : Int)) :=
  ⟨⟨by decide, by decide⟩,
   ((C6_forward_sync (init 4 false).state 3 (by decide) (by decide)).1).1,
   ((C6_forward_sync (init 4 false).state 3 (by decide) (by decide)).1).2.1⟩

/-- C9: the position setter stores pos without normalization, so a
subsequent on() indexes the coil table with the raw stored position:
for -len <= pos < len it succeeds (Python negative indexing) and writes
CoilTable[pos mod len]; for pos >= len or pos < -len it raises IndexError
and leaves the coil outputs untouched. -/
theorem C9_on_raw_position (s : StepperMotor) (pos : Int) (hWF : WF s) :
    position_get (position_set s pos).state = pos ∧
    (-(s.coilValues.length : Int) ≤ pos → pos < (s.coilValues.length : Int) →
      («on» (position_set s pos).state).err = none ∧
      value_get («on» (position_set s pos).state).state =
        s.coilValues.getD ((pos % (s.coilValues.length : Int)).toNat) []) ∧
    ((pos < -(s.coilValues.length : Int) ∨ (s.coilValues.length : Int) ≤ pos) →
      («on» (position_set s pos).state).err = some PyErr.indexError ∧
      value_get («on» (position_set s pos).state).state =
        value_get (position_set s pos).state) := by
  have hWF1 := WF_position_set s pos hWF
  rw [position_set_spec s pos hWF] at hWF1 ⊢
  refine ⟨rfl, ?_, ?_⟩
  · intro hb1 hb2
    rw [on_spec_ok _ hWF1 hb1 hb2]
    exact ⟨rfl, rfl⟩
  · intro hb
    rw [on_spec_err _ hb]
    exact ⟨rfl, rfl⟩

/-- C9 witness: on a 4-coil full-step controller, position = -2 lets on()
re-energize coil 2, while position = 4 makes on() raise IndexError. -/
theorem C9_witness :
    WF (init 4 false).state ∧
    (((-(((init 4 false).state.coilValues.length : Int)) ≤ (-2 : Int)) ∧
      ((-2 : Int) < (((init 4 false).state.coilValues.length : Int)))) ∧
     («on» (position_set (init 4 false).state (-2)).state).err = none) ∧
    ((((init 4 false).state.coilValues.length : Int) ≤ (4 : Int)) ∧
     («on» (position_set (init 4 false).state 4).state).err =
       some PyErr.indexError) :=
  ⟨by decide,
   ⟨⟨by decide, by decide⟩,
    ((C9_on_raw_position (init 4 false).state (-2) (by decide)).2.1
      (by decide) (by decide)).1⟩,
   ⟨by decide,
    ((C9_on_raw_position (init 4 false).state 4 (by decide)).2.2
      (Or.inr (by decide))).1⟩⟩

/-- C10: a valid pattern whose length differs from the coil count is
accepted: the pairwise zip writes the first min(k, N) coils, the
remaining coils keep their previous levels, and the surplus pattern
elements are validated but generate no pin write. -/
theorem C10_length_mismatch (s : StepperMotor) (v : List Int)
    (hv : validPattern v = true) (_hk : v.length ≠ s.coils.length) :
    (value_set s v).err = none ∧
    value_get (value_set s v).state = v.take s.coils.length ++ s.coils.drop v.length ∧
    (value_get (value_set s v).state).length = s.coils.length ∧
    (value_set s v).trace =
      (if s.moveThread then [Event.taskStopped] else []) ++
        (v.take s.coils.length).map Event.pinWrite := by
  simp only [value_set]
  rw [if_pos hv]
  refine ⟨rfl, ?_, ?_, ?_⟩
  · show (writeZip ((stop_move s).1).coils v).1 = _
    rw [stop_move_fst]
    exact writeZip_fst s.coils v
  · show (writeZip ((stop_move s).1).coils v).1.length = _
    rw [stop_move_fst]
    exact writeZip_length s.coils v
  · show (stop_move s).2 ++ (writeZip ((stop_move s).1).coils v).2 = _
    rw [stop_move_fst, stop_move_snd]
    rw [writeZip_snd]

/-- C10 witness: writing the 2-element pattern (1,1) to a 4-coil
controller energizes coils 0 and 1 and leaves coils 2 and 3 at their
previous levels. -/
theorem C10_witness :
    (validPattern [1, 1] = true ∧
     ([1, 1] : List Int).length ≠ (init 4 false).state.coils.length) ∧
    (value_set (init 4 false).state [1, 1]).err = none ∧
    value_get (value_set (init 4 false).state [1, 1]).state =
      ([1, 1] : List Int).take (init 4 false).state.coils.length ++
        (init 4 false).state.coils.drop ([1, 1] : List Int).length :=
  ⟨⟨by decide, by decide⟩,
   (C10_length_mismatch (init 4 false).state [1, 1] (by decide) (by decide)).1,
   (C10_length_mismatch (init 4 false).state [1, 1] (by decide) (by decide)).2.1⟩

namespace StepperMotor

lemma close_closed (x : StepperMotor) (hx : x.coils = []) : close x = (x, []) := by
  simp only [close]
  rw [if_neg (by simp [hx])]
  rw [set_coils_nil_self x hx]

end StepperMotor

/-- C2 counterexample: after close(), step(1) completes with no
exception at all — in particular it does not fail with the closed-device
error the claim requires of every public operation on a closed
controller. -/
theorem C2_counterexample :
    closed (close (init 4 false).state).1 = true ∧
    (step (close (init 4 false).state).1 1).err = none ∧
    (step (close (init 4 false).state).1 1).err ≠ some PyErr.closedDevice := by
  refine ⟨rfl, rfl, by decide⟩

/-- C2 (amended): close() is idempotent — a second close() leaves the
state unchanged and releases nothing — but operations invoked after
close() do not fail with a closed-device error: the value, position,
step, forward and backward operations all complete without raising
(acting on the empty coil tuple), and no pin is written. -/
theorem C2_close_idempotent (s : StepperMotor) :
    ((close (close s).1).1 = (close s).1 ∧ (close (close s).1).2 = []) ∧
    (s.coils = [] → s.coilValues ≠ [] →
      (∀ row ∈ s.coilValues, ∀ x ∈ row, x = 0 ∨ x = 1) →
      ∀ pos d : Int, ∀ n : Nat, ∀ b : Bool, ∀ v : List Int, validPattern v = true →
        (step s d).err = none ∧
        (position_set s pos).err = none ∧
        (value_set s v).err = none ∧
        (forward s n b).err = none ∧
        (backward s n b).err = none ∧
        (∀ w, Event.pinWrite w ∉ (step s d).trace) ∧
        (∀ w, Event.pinWrite w ∉ (position_set s pos).trace) ∧
        (∀ w, Event.pinWrite w ∉ (value_set s v).trace)) := by
  refine ⟨⟨?_, ?_⟩, ?_⟩
  · rw [StepperMotor.close_closed _ (close_fst_coils s)]
  · rw [StepperMotor.close_closed _ (close_fst_coils s)]
  · intro hc hne hrows pos d n b v hv
    exact ⟨step_err_none s hne hrows d, position_set_err_none s hne hrows pos,
      by rw [value_set_err_eq, if_pos hv],
      forward_err_none s n b, backward_err_none s n b,
      fun w => pinWrite_not_mem_step_closed s hc d w,
      fun w => pinWrite_not_mem_position_set_closed s hc pos w,
      fun w => pinWrite_not_mem_value_set_closed s hc v w⟩

/-- C2 witness: the closed 4-coil controller — double close is a no-op
and step/position/value calls after close() raise nothing. -/
theorem C2_witness :
    ((close (close (close (init 4 false).state).1).1).1 =
       (close (close (init 4 false).state).1).1) ∧
    ((close (init 4 false).state).1.coils = [] ∧
     validPattern [1, 0] = true) ∧
    (step (close (init 4 false).state).1 1).err = none ∧
    (position_set (close (init 4 false).state).1 5).err = none ∧
    (value_set (close (init 4 false).state).1 [1, 0]).err = none :=
  ⟨(C2_close_idempotent (close (init 4 false).state).1).1.1,
   ⟨by decide, by decide⟩,
   ((C2_close_idempotent (close (init 4 false).state).1).2 (by decide) (by decide)
     (by decide) 5 1 2 false [1, 0] (by decide)).1,
   ((C2_close_idempotent (close (init 4 false).state).1).2 (by decide) (by decide)
     (by decide) 5 1 2 false [1, 0] (by decide)).2.1,
   ((C2_close_idempotent (close (init 4 false).state).1).2 (by decide) (by decide)
     (by decide) 5 1 2 false [1, 0] (by decide)).2.2.1⟩

/-- C8: while a motion task is running, every position- or value-mutating
public call (and close()) first stops and joins the task — its event
trace begins with the stop-and-join event, before any position
assignment, pin write or pin release — and only forward/backward start a
task again: their traces are exactly stop, then start, then step events,
with no further stop or start. -/
theorem C8_cancel_before_mutate (s : StepperMotor) (hrun : s.moveThread = true) :
    (∀ v, validPattern v = true →
      (value_set s v).trace.head? = some Event.taskStopped ∧
      Event.taskStarted ∉ (value_set s v).trace) ∧
    (∀ pos, (position_set s pos).trace.head? = some Event.taskStopped ∧
      Event.taskStarted ∉ (position_set s pos).trace) ∧
    (∀ d, (step s d).trace.head? = some Event.taskStopped ∧
      Event.taskStarted ∉ (step s d).trace) ∧
    ((off s).trace.head? = some Event.taskStopped ∧
      Event.taskStarted ∉ (off s).trace) ∧
    ((«on» s).trace.head? = some Event.taskStopped ∧
      Event.taskStarted ∉ («on» s).trace) ∧
    (s.coils ≠ [] → (close s).2.head? = some Event.taskStopped ∧
      Event.taskStarted ∉ (close s).2) ∧
    (∀ n b, ∃ rest, (forward s n b).trace =
        Event.taskStopped :: Event.taskStarted :: rest ∧
      Event.taskStopped ∉ rest ∧ Event.taskStarted ∉ rest) ∧
    (∀ n b, ∃ rest, (backward s n b).trace =
        Event.taskStopped :: Event.taskStarted :: rest ∧
      Event.taskStopped ∉ rest ∧ Event.taskStarted ∉ rest) :=
  ⟨fun v hv => ⟨head_value_set s hrun v hv, started_not_mem_value_set s v⟩,
   fun pos => ⟨head_position_set s hrun pos, started_not_mem_position_set s pos⟩,
   fun d => ⟨head_step s hrun d, started_not_mem_step s d⟩,
   ⟨head_off s hrun, started_not_mem_off s⟩,
   ⟨head_on s hrun, started_not_mem_on s⟩,
   fun hc => ⟨head_close s hrun hc, started_not_mem_close s⟩,
   fun n b => forward_trace_shape s hrun n b,
   fun n b => backward_trace_shape s hrun n b⟩

/-- C8 witness: with a background motion running on the 4-coil
controller, a position write and a step both stop the task first. -/
theorem C8_witness :
    (forward (init 4 false).state 2 true).state.moveThread = true ∧
    (position_set (forward (init 4 false).state 2 true).state 0).trace.head? =
      some Event.taskStopped ∧
    (step (forward (init 4 false).state 2 true).state 1).trace.head? =
      some Event.taskStopped :=
  ⟨by decide,
   ((C8_cancel_before_mutate (forward (init 4 false).state 2 true).state
     (by decide)).2.1 0).1,
   ((C8_cancel_before_mutate (forward (init 4 false).state 2 true).state
     (by decide)).2.2.1 1).1⟩
